import Mathlib

/-!
# Verification of the HTMLGuitarTuner pitch pipeline

A shallow embedding of the pitch-estimation core of the tuner
(`autoCorrelate`, `noteFromPitch`, `frequencyFromNoteNumber`, the
median-smoothing state in `updatePitch`, and the reset logic in `cleanup`),
together with theorems settling the specification claims.

Floating-point sample values are modelled as exact rationals `ℚ`;
the transcendental note math (`Math.log`, `Math.pow`, `Math.log2`) is
modelled over the reals `ℝ`.  JavaScript arrays of numbers become `List ℚ`.
-/

namespace GuitarTuner

/-! ## Constants (source: `CONSTANTS`, part_000 lines 14-19) -/

/-- `CONSTANTS.BUFFER_SIZE = 1`: capacity of the pitch-history buffer. -/
def BUFFER_SIZE : ℕ := 1

/-- `CONSTANTS.MIN_RMS = 0.001`: volume threshold for accepting a detection. -/
def MIN_RMS : ℚ := 1 / 1000

/-- `CONSTANTS.NOISE_THRESHOLD = 0.02`: RMS noise gate inside `autoCorrelate`. -/
def NOISE_THRESHOLD : ℚ := 1 / 50

/-! ## PitchTracker state (source: `tunerState.pitchBuffer`,
`tunerState.lastValidPitch`, and the smoothing logic in `updatePitch`,
part_000 lines 2-12 and 162-186)

Only the two fields of `tunerState` that carry pitch-smoothing state are
modelled; the remaining fields hold Web-Audio objects outside the core. -/

structure TrackerState where
  pitchBuffer : List ℚ
  lastValidPitch : ℚ
  deriving DecidableEq

/-- Initial tracker state: `pitchBuffer: []`, `lastValidPitch: 0`
(part_000 lines 7-8). -/
def initialTracker : TrackerState := { pitchBuffer := [], lastValidPitch := 0 }

/-- One per-frame update of the smoothing state (part_000 lines 174-180):

```js
if (rms > CONSTANTS.MIN_RMS && ac !== -1) {
  tunerState.pitchBuffer.push(ac);
  if (tunerState.pitchBuffer.length > CONSTANTS.BUFFER_SIZE) {
    tunerState.pitchBuffer.shift();
  }
  tunerState.lastValidPitch = ac;
}
```

`rms` is the frame's RMS volume (the source computes it as
`Math.sqrt(mean(sample^2))`; only its comparison with `MIN_RMS` matters
here), `ac` the return value of `autoCorrelate` (`-1` = no pitch).
`push` appends at the right, `shift` removes the leftmost (oldest) entry. -/
def trackerStep (s : TrackerState) (rms ac : ℚ) : TrackerState :=
  if MIN_RMS < rms ∧ ac ≠ -1 then
    let buf := s.pitchBuffer ++ [ac]
    { pitchBuffer := if BUFFER_SIZE < buf.length then buf.tail else buf,
      lastValidPitch := ac }
  else s

/-- The reset path (source: `cleanup`, part_000 lines 268-319).  Of the
pitch-smoothing state it resets only the history:
`tunerState.pitchBuffer = []` (line 305); `lastValidPitch` is not touched
anywhere in `cleanup`. -/
def cleanupTracker (s : TrackerState) : TrackerState :=
  { pitchBuffer := [], lastValidPitch := s.lastValidPitch }

/-- The smoothed pitch read-out (part_000 lines 182-186):

```js
const sortedPitches = [...tunerState.pitchBuffer].sort((a, b) => a - b);
const pitch = tunerState.pitchBuffer.length > 0
  ? sortedPitches[Math.floor(sortedPitches.length / 2)]
  : (tunerState.lastValidPitch || 0);
```

`sort((a,b) => a-b)` sorts ascending (modelled by `insertionSort (· ≤ ·)`;
`sortedPitches.length = pitchBuffer.length`).  On the numeric model
`lastValidPitch || 0` is `lastValidPitch` itself (it yields `0` exactly
when `lastValidPitch` is `0`). -/
def smoothedPitch (s : TrackerState) : ℚ :=
  let sorted := s.pitchBuffer.insertionSort (· ≤ ·)
  if 0 < s.pitchBuffer.length then sorted.getD (s.pitchBuffer.length / 2) 0
  else s.lastValidPitch

/-- Modelled from the spec: "Smoothed output = median of the current
PitchHistory contents if non-empty".  The median of a list: the middle
element of the ascending sort (the lower middle for even lengths).
Used only to compare the code's read-out against the spec's words. -/
def listMedian (l : List ℚ) : ℚ :=
  (l.insertionSort (· ≤ ·)).getD ((l.length - 1) / 2) 0

/-- Helper: an accepted detection leaves exactly the singleton history
`[ac]` whenever the capacity invariant held before. -/
theorem trackerStep_accept_buffer (s : TrackerState) (rms ac : ℚ)
    (hlen : s.pitchBuffer.length ≤ BUFFER_SIZE)
    (hrms : MIN_RMS < rms) (hac : ac ≠ -1) :
    (trackerStep s rms ac).pitchBuffer = [ac] := by
  unfold trackerStep
  rw [if_pos ⟨hrms, hac⟩]
  rcases s with ⟨buf, lvp⟩
  match buf, hlen with
  | [], _ => rfl
  | [x], _ => rfl

/-- Helper: `trackerStep` preserves the capacity bound. -/
theorem trackerStep_length (s : TrackerState) (rms ac : ℚ)
    (hlen : s.pitchBuffer.length ≤ BUFFER_SIZE) :
    (trackerStep s rms ac).pitchBuffer.length ≤ BUFFER_SIZE := by
  by_cases h : MIN_RMS < rms ∧ ac ≠ -1
  · rw [trackerStep_accept_buffer s rms ac hlen h.1 h.2]
    simp [BUFFER_SIZE]
  · unfold trackerStep
    rw [if_neg h]
    exact hlen

/-- Helper: a rejected frame (too quiet or `ac = -1`) leaves the state
unchanged. -/
theorem trackerStep_reject (s : TrackerState) (rms ac : ℚ)
    (h : ¬(MIN_RMS < rms ∧ ac ≠ -1)) : trackerStep s rms ac = s := by
  unfold trackerStep
  rw [if_neg h]

/-- Helper: the smoothed read-out of a one-element history is that
element, whatever `lastValidPitch` holds. -/
theorem smoothedPitch_singleton (s : TrackerState) (x : ℚ)
    (h : s.pitchBuffer = [x]) : smoothedPitch s = x := by
  simp [smoothedPitch, h, List.insertionSort, List.orderedInsert]

/-- Helper: a trace of updates starting from the initial tracker keeps
the history within capacity. -/
theorem trace_length (es : List (ℚ × ℚ)) (s : TrackerState)
    (hlen : s.pitchBuffer.length ≤ BUFFER_SIZE) :
    (es.foldl (fun t p => trackerStep t p.1 p.2) s).pitchBuffer.length
      ≤ BUFFER_SIZE := by
  induction es generalizing s with
  | nil => exact hlen
  | cons p es ih => exact ih _ (trackerStep_length s p.1 p.2 hlen)

/-- Helper: a trace made only of rejected frames leaves the state where
it started. -/
theorem trace_reject (es : List (ℚ × ℚ)) (s : TrackerState)
    (h : ∀ p ∈ es, ¬(MIN_RMS < p.1 ∧ p.2 ≠ -1)) :
    es.foldl (fun t p => trackerStep t p.1 p.2) s = s := by
  induction es with
  | nil => rfl
  | cons p es ih =>
      simp only [List.foldl_cons,
        trackerStep_reject s p.1 p.2 (h p (List.mem_cons_self p es))]
      exact ih fun q hq => h q (List.mem_cons_of_mem p hq)

/-! ## Claim C1 -/

/-- C1, counterexample: the claim asserts that after the reset operation
"both the pitch history and lastValidPitch are cleared".  Starting from
the fresh tracker, feeding one accepted detection at 100 Hz and then
resetting leaves `lastValidPitch = 100 ≠ 0`: `cleanup` clears only the
history. -/
theorem cleanup_keeps_lastValidPitch :
    (cleanupTracker (trackerStep initialTracker 1 100)).lastValidPitch = 100
      ∧ ((100 : ℚ) ≠ 0) := by
  refine ⟨?_, by norm_num⟩
  norm_num [cleanupTracker, trackerStep, initialTracker, MIN_RMS]

/-- C1, amended: `cleanup` clears the pitch history but retains
`lastValidPitch`; nevertheless, feeding a single accepted `Detected(f)`
(volume above `MIN_RMS`, `f ≠ -1`) after the reset produces the same
smoothed output as a freshly constructed tracker fed the same single
detection, because the smoothed output is read from the (now non-empty)
history alone. -/
theorem cleanup_single_detection_equiv (s : TrackerState) (rms f : ℚ)
    (hrms : MIN_RMS < rms) (hf : f ≠ -1) :
    (cleanupTracker s).pitchBuffer = []
      ∧ (cleanupTracker s).lastValidPitch = s.lastValidPitch
      ∧ smoothedPitch (trackerStep (cleanupTracker s) rms f)
          = smoothedPitch (trackerStep initialTracker rms f) := by
  refine ⟨rfl, rfl, ?_⟩
  rw [smoothedPitch_singleton _ f
      (trackerStep_accept_buffer (cleanupTracker s) rms f (by simp [cleanupTracker]) hrms hf),
    smoothedPitch_singleton _ f
      (trackerStep_accept_buffer initialTracker rms f (by simp [initialTracker]) hrms hf)]

/-- C1, witness for the amended theorem: reset from the state
`⟨[5], 7⟩`, then feed `Detected(100)` at volume 1. -/
theorem cleanup_single_detection_equiv_witness :
    (cleanupTracker ⟨[5], 7⟩).pitchBuffer = []
      ∧ (cleanupTracker ⟨[5], 7⟩).lastValidPitch = (7 : ℚ)
      ∧ smoothedPitch (trackerStep (cleanupTracker ⟨[5], 7⟩) 1 100)
          = smoothedPitch (trackerStep initialTracker 1 100) :=
  cleanup_single_detection_equiv ⟨[5], 7⟩ 1 100 (by norm_num [MIN_RMS]) (by norm_num)

/-! ## Claim C7 -/

/-- C7: under the capacity invariant, the smoothed frequency after an
update equals the median of the post-update history when that history is
non-empty, equals `lastValidPitch` when it is empty, and equals 0 along
any trace in which no frame was ever accepted as a detection. -/
theorem smoothed_is_median (s : TrackerState) (rms ac : ℚ)
    (hlen : s.pitchBuffer.length ≤ BUFFER_SIZE) :
    ((trackerStep s rms ac).pitchBuffer ≠ [] →
        smoothedPitch (trackerStep s rms ac)
          = listMedian (trackerStep s rms ac).pitchBuffer)
      ∧ ((trackerStep s rms ac).pitchBuffer = [] →
        smoothedPitch (trackerStep s rms ac)
          = (trackerStep s rms ac).lastValidPitch)
      ∧ (∀ es : List (ℚ × ℚ), (∀ p ∈ es, ¬(MIN_RMS < p.1 ∧ p.2 ≠ -1)) →
        smoothedPitch
          (es.foldl (fun t p => trackerStep t p.1 p.2) initialTracker) = 0) := by
  refine ⟨?_, ?_, ?_⟩
  · intro hne
    by_cases h : MIN_RMS < rms ∧ ac ≠ -1
    · have hb := trackerStep_accept_buffer s rms ac hlen h.1 h.2
      rw [smoothedPitch_singleton _ ac hb, hb]
      simp [listMedian, List.insertionSort, List.orderedInsert]
    · rw [trackerStep_reject s rms ac h] at hne ⊢
      rcases s with ⟨buf, lvp⟩
      match buf, hlen with
      | [], _ => exact absurd rfl hne
      | [x], _ =>
          rw [smoothedPitch_singleton _ x rfl]
          simp [listMedian, List.insertionSort, List.orderedInsert]
  · intro hemp
    by_cases h : MIN_RMS < rms ∧ ac ≠ -1
    · rw [trackerStep_accept_buffer s rms ac hlen h.1 h.2] at hemp
      exact absurd hemp (by simp)
    · rw [trackerStep_reject s rms ac h] at hemp ⊢
      simp [smoothedPitch, hemp]
  · intro es hes
    rw [trace_reject es initialTracker hes]
    rfl

/-- C7, witness: one accepted detection at 110 Hz from the fresh tracker;
the smoothed output equals the median of the one-element history. -/
theorem smoothed_is_median_witness :
    (trackerStep initialTracker 1 110).pitchBuffer ≠ []
      ∧ smoothedPitch (trackerStep initialTracker 1 110)
          = listMedian (trackerStep initialTracker 1 110).pitchBuffer :=
  have hne : (trackerStep initialTracker 1 110).pitchBuffer ≠ [] := by
    norm_num [trackerStep, initialTracker, MIN_RMS, BUFFER_SIZE]
  ⟨hne, (smoothed_is_median initialTracker 1 110 (by simp [initialTracker])).1 hne⟩

/-! ## Claim C8 -/

/-- C8: under the capacity invariant, one update keeps the history within
capacity `BUFFER_SIZE`; an accepted detection appends `f` at the right,
evicting the oldest (leftmost) entry exactly when the history was full,
so arrival order is preserved among the survivors; and along any trace of
updates from the fresh tracker the history never exceeds capacity. -/
theorem history_capacity_eviction (s : TrackerState) (rms f : ℚ)
    (es : List (ℚ × ℚ)) (hlen : s.pitchBuffer.length ≤ BUFFER_SIZE) :
    ((trackerStep s rms f).pitchBuffer.length ≤ BUFFER_SIZE)
      ∧ (MIN_RMS < rms → f ≠ -1 →
        (trackerStep s rms f).pitchBuffer =
          if s.pitchBuffer.length < BUFFER_SIZE then s.pitchBuffer ++ [f]
          else s.pitchBuffer.tail ++ [f])
      ∧ ((es.foldl (fun t p => trackerStep t p.1 p.2)
            initialTracker).pitchBuffer.length ≤ BUFFER_SIZE) := by
  refine ⟨trackerStep_length s rms f hlen, ?_,
    trace_length es initialTracker (by simp [initialTracker])⟩
  intro hrms hf
  rw [trackerStep_accept_buffer s rms f hlen hrms hf]
  rcases s with ⟨buf, lvp⟩
  match buf, hlen with
  | [], _ => rfl
  | [x], _ => rfl

/-- C8, witness: a full history `[100]` accepting `Detected(200)` evicts
the oldest entry and keeps the newcomer. -/
theorem history_capacity_eviction_witness :
    (trackerStep ⟨[100], 100⟩ 1 200).pitchBuffer =
      if ([100] : List ℚ).length < BUFFER_SIZE then [100] ++ [200]
      else ([100] : List ℚ).tail ++ [200] :=
  (history_capacity_eviction ⟨[100], 100⟩ 1 200 [] (by simp [BUFFER_SIZE])).2.1
    (by norm_num [MIN_RMS]) (by norm_num)

/-! ## SampleAnalyzer: `autoCorrelate` (part_000 lines 69-110)

The audio frame `buf` is a `List ℚ`; out-of-range array reads are modelled
with default `0` (the inner sums only ever read indices
`i + offset ≤ 2*(⌊SIZE/2⌋ - 1) ≤ SIZE - 2`, which are in range).
The `correlations` Float32Array is write-once: cell `offset` receives the
pure value `corrScore buf offset` right before any branch can read it, so
the array is modelled by the function `corrScore` itself. -/

/-- The correlation score computed for one lag (part_000 lines 84-90):

```js
let correlation = 0;
for (let i = 0; i < MAX_SAMPLES; i++) {
  correlation += Math.abs((buf[i]) - (buf[i + offset]));
}
correlation = 1 - (correlation / MAX_SAMPLES);
```

with `MAX_SAMPLES = Math.floor(SIZE / 2)`. -/
def corrScore (buf : List ℚ) (offset : ℕ) : ℚ :=
  let M := buf.length / 2
  1 - ((List.range M).foldl
        (fun acc i => acc + |buf.getD i 0 - buf.getD (i + offset) 0|) 0) / (M : ℚ)

/-- `corrScore` read at a JavaScript (signed) array index, as in the
parabolic-interpolation reads `correlations[bestOffset ± 1]`.  A negative
index is clamped to 0; the safety claim shows such reads never occur
(`bestOffset ≥ 1` whenever the reading branch runs). -/
def corrScoreZ (buf : List ℚ) (k : ℤ) : ℚ := corrScore buf k.toNat

/-- The value held by the loop variable `lastCorrelation` when iteration
`offset` begins: its initialiser `1` (part_000 line 81) before the first
iteration, afterwards the previous lag's score (line 103). -/
def prevScore (buf : List ℚ) (offset : ℕ) : ℚ :=
  if offset = 0 then 1 else corrScore buf (offset - 1)

/-- The mutable state of the lag-scan loop (part_000 lines 78-83):
`bestOffset = -1`, `bestCorrelation = 0`, `foundGoodCorrelation = false`,
`lastCorrelation = 1` initially, plus the loop counter `offset`. -/
structure ScanState where
  offset : ℕ
  bestOffset : ℤ
  bestCorrelation : ℚ
  foundGoodCorrelation : Bool
  lastCorrelation : ℚ
  deriving DecidableEq

/-- Initial scan state (part_000 lines 78-83). -/
def initScan : ScanState :=
  { offset := 0, bestOffset := -1, bestCorrelation := 0,
    foundGoodCorrelation := false, lastCorrelation := 1 }

/-- Outcome of one loop iteration: an early `return` from inside the loop
body, or the state passed to the next iteration. -/
inductive ScanResult where
  | ret (f : ℚ) : ScanResult
  | next (st : ScanState) : ScanResult
  deriving DecidableEq

/-- One iteration of the lag-scan loop body (part_000 lines 84-103):

```js
// correlation = corrScore(offset); correlations[offset] = correlation;
if ((correlation > 0.9) && (correlation > lastCorrelation)) {
  foundGoodCorrelation = true;
  if (correlation > bestCorrelation) {
    bestCorrelation = correlation;
    bestOffset = offset;
  }
} else if (foundGoodCorrelation) {
  const shift = (correlations[bestOffset + 1] - correlations[bestOffset - 1])
                  / correlations[bestOffset];
  return sampleRate / (bestOffset + (8 * shift));
}
lastCorrelation = correlation;
``` -/
def scanStep (buf : List ℚ) (sampleRate : ℚ) (st : ScanState) : ScanResult :=
  let correlation := corrScore buf st.offset
  if (9/10 : ℚ) < correlation ∧ st.lastCorrelation < correlation then
    let st1 := if st.bestCorrelation < correlation
      then { st with bestCorrelation := correlation, bestOffset := (st.offset : ℤ) }
      else st
    ScanResult.next
      { st1 with
        foundGoodCorrelation := true
        lastCorrelation := correlation
        offset := st.offset + 1 }
  else if st.foundGoodCorrelation then
    let shift := (corrScoreZ buf (st.bestOffset + 1) - corrScoreZ buf (st.bestOffset - 1))
                   / corrScoreZ buf st.bestOffset
    ScanResult.ret (sampleRate / ((st.bestOffset : ℚ) + 8 * shift))
  else
    ScanResult.next { st with lastCorrelation := correlation, offset := st.offset + 1 }

/-- The lag-scan loop `for (offset = 0; offset < MAX_SAMPLES; offset++)`
together with the post-loop fallback (part_000 lines 83-109).  `fuel`
counts the iterations still to run (`MAX_SAMPLES - offset`); at `fuel = 0`
the loop has ended and the fallback runs:

```js
if (bestCorrelation > 0.01) {
  return sampleRate / bestOffset;
}
return -1;
``` -/
def scanLoop (buf : List ℚ) (sampleRate : ℚ) : ℕ → ScanState → ℚ
  | 0, st =>
      if (1/100 : ℚ) < st.bestCorrelation then sampleRate / (st.bestOffset : ℚ)
      else -1
  | fuel + 1, st =>
      match scanStep buf sampleRate st with
      | ScanResult.ret f => f
      | ScanResult.next st1 => scanLoop buf sampleRate fuel st1

/-- The mean of the squared samples,
`buf.reduce((acc, val) => acc + val * val, 0) / SIZE` (part_000 line 75).
For the empty frame JavaScript gets `0/0 = NaN`; here `0/0 = 0`.  Either
way `autoCorrelate` returns `-1` on the empty frame (JavaScript because
`NaN < 0.02` is false and the empty scan then falls through to the final
`return -1`; the model because the gate fires), so the two agree on every
observable result. -/
def meanSquare (buf : List ℚ) : ℚ :=
  (buf.foldl (fun acc v => acc + v * v) 0) / (buf.length : ℚ)

/-- `autoCorrelate(buf, sampleRate)` (part_000 lines 69-110).  The noise
gate `Math.sqrt(meanSquare) < NOISE_THRESHOLD` is stated squared —
equivalent for the nonnegative radicand — to stay inside `ℚ`.
Returns the detected frequency, or the sentinel `-1` for "no pitch". -/
def autoCorrelate (buf : List ℚ) (sampleRate : ℚ) : ℚ :=
  if meanSquare buf < NOISE_THRESHOLD * NOISE_THRESHOLD then -1
  else scanLoop buf sampleRate (buf.length / 2) initScan

/-! ## Claim C2 -/

/-- C2, counterexample: the claim asserts that an empty frame makes
`analyze` fail fast with an `InvalidInput` condition instead of silently
returning the `NoPitch` sentinel.  `autoCorrelate` contains no validation
and no throw: on the empty frame it silently returns the sentinel `-1`. -/
theorem empty_frame_silent_sentinel : autoCorrelate [] 44100 = -1 := by
  norm_num [autoCorrelate, meanSquare, NOISE_THRESHOLD]

/-- C2, amended: `autoCorrelate` performs no structural input validation;
an empty frame and an odd-length frame are processed by the ordinary code
path and here both yield the `NoPitch` sentinel `-1`, for every sample
rate.  (On the empty frame JavaScript reaches `-1` through a `NaN` RMS
and an empty scan; the model reaches `-1` through the noise gate —
same observable result.) -/
theorem no_invalid_input_condition (rate : ℚ) :
    autoCorrelate [] rate = -1
      ∧ autoCorrelate [1/2, -1/2, 1/2] rate = -1 := by
  constructor
  · norm_num [autoCorrelate, meanSquare, NOISE_THRESHOLD]
  · norm_num [autoCorrelate, meanSquare, NOISE_THRESHOLD, scanLoop, scanStep,
      corrScore, initScan, List.range_succ]

/-! ## Claim C6 -/

/-- C6: every non-empty frame whose RMS is below the noise threshold
(stated squared: mean square below `NOISE_THRESHOLD²`) yields the
`NoPitch` sentinel immediately, regardless of the samples' contents —
in particular every non-empty all-zero frame, whose mean square is 0. -/
theorem noise_gate_noPitch (buf : List ℚ) (rate : ℚ) (_hne : buf ≠ [])
    (hq : meanSquare buf < NOISE_THRESHOLD * NOISE_THRESHOLD) :
    autoCorrelate buf rate = -1 := by
  unfold autoCorrelate
  rw [if_pos hq]

/-- C6, witness: the all-zero two-sample frame. -/
theorem noise_gate_noPitch_witness :
    ([(0 : ℚ), 0] ≠ [])
      ∧ meanSquare [(0 : ℚ), 0] < NOISE_THRESHOLD * NOISE_THRESHOLD
      ∧ autoCorrelate [(0 : ℚ), 0] 44100 = -1 :=
  ⟨by simp, by norm_num [meanSquare, NOISE_THRESHOLD],
    noise_gate_noPitch [0, 0] 44100 (by simp)
      (by norm_num [meanSquare, NOISE_THRESHOLD])⟩

/-! ## Claim C5 -/

/-- C5: once a qualifying correlation region has been found
(`foundGoodCorrelation` set) and the scan reaches a lag whose score does
not improve on the previous lag's score (`score ≤ lastCorrelation`, so
the qualifying condition fails), the loop body returns
`sampleRate / (bestLag + 8 * shift)` with
`shift = (score[bestLag+1] - score[bestLag-1]) / score[bestLag]`,
where `bestLag` is the tracked best qualifying lag. -/
theorem region_end_parabolic_return (buf : List ℚ) (rate : ℚ) (st : ScanState)
    (hfound : st.foundGoodCorrelation = true)
    (hstop : corrScore buf st.offset ≤ st.lastCorrelation) :
    scanStep buf rate st = ScanResult.ret (rate / ((st.bestOffset : ℚ)
        + 8 * ((corrScoreZ buf (st.bestOffset + 1) - corrScoreZ buf (st.bestOffset - 1))
                / corrScoreZ buf st.bestOffset)))
      ∧ ∀ fuel, scanLoop buf rate (fuel + 1) st
          = rate / ((st.bestOffset : ℚ)
              + 8 * ((corrScoreZ buf (st.bestOffset + 1) - corrScoreZ buf (st.bestOffset - 1))
                      / corrScoreZ buf st.bestOffset)) := by
  have hret : scanStep buf rate st = ScanResult.ret (rate / ((st.bestOffset : ℚ)
      + 8 * ((corrScoreZ buf (st.bestOffset + 1) - corrScoreZ buf (st.bestOffset - 1))
              / corrScoreZ buf st.bestOffset))) := by
    simp only [scanStep]
    rw [if_neg (fun h => absurd h.2 (not_lt.2 hstop))]
    simp [hfound]
  exact ⟨hret, fun fuel => by simp only [scanLoop, hret]⟩

/-- C5, witness: a concrete state with a found region whose score has
stopped improving; the step (and hence the whole analysis loop) returns
the interpolated frequency. -/
theorem region_end_parabolic_return_witness :
    scanStep [(0 : ℚ), 0, 0, 0] 44100 ⟨1, 1, 1, true, 1⟩ = ScanResult.ret 44100
      ∧ scanLoop [(0 : ℚ), 0, 0, 0] 44100 1 ⟨1, 1, 1, true, 1⟩ = 44100 := by
  have h := region_end_parabolic_return [(0 : ℚ), 0, 0, 0] 44100 ⟨1, 1, 1, true, 1⟩ rfl
    (by norm_num [corrScore, List.range_succ])
  constructor
  · rw [h.1]
    simp [corrScoreZ, corrScore, List.range_succ]
  · have h2 := h.2 0
    rw [show (0 + 1) = 1 from rfl] at h2
    rw [h2]
    simp [corrScoreZ, corrScore, List.range_succ]

/-! ## Claim C3 -/

/-- Helper: if the sweep starts in a state with no region found and zero
best score, and no remaining lag qualifies (score above 0.9 and above the
previous lag's score), the loop runs to completion and falls through to
`-1`: `bestCorrelation` is only ever raised at qualifying lags, so the
post-loop `0.01` test compares against 0, not against the best score
observed anywhere. -/
theorem scanLoop_no_qualify (buf : List ℚ) (rate : ℚ) :
    ∀ (fuel : ℕ) (st : ScanState),
      st.foundGoodCorrelation = false →
      st.bestCorrelation = 0 →
      st.lastCorrelation = prevScore buf st.offset →
      (∀ o, st.offset ≤ o → o < st.offset + fuel →
        ¬((9/10 : ℚ) < corrScore buf o ∧ prevScore buf o < corrScore buf o)) →
      scanLoop buf rate fuel st = -1 := by
  intro fuel
  induction fuel with
  | zero =>
      intro st _ hbest _ _
      simp only [scanLoop, hbest]
      norm_num
  | succ fuel ih =>
      intro st hfound hbest hlast hno
      have hnq : ¬((9/10 : ℚ) < corrScore buf st.offset ∧
          st.lastCorrelation < corrScore buf st.offset) := by
        rw [hlast]
        exact hno st.offset le_rfl (by omega)
      have hstep : scanStep buf rate st = ScanResult.next
          { st with lastCorrelation := corrScore buf st.offset,
                    offset := st.offset + 1 } := by
        simp only [scanStep]
        rw [if_neg hnq]
        simp [hfound]
      simp only [scanLoop, hstep]
      refine ih _ hfound hbest (by simp [prevScore]) ?_
      intro o h1 h2
      have hoff : ({ st with
          lastCorrelation := corrScore buf st.offset
          offset := st.offset + 1 } : ScanState).offset = st.offset + 1 := rfl
      rw [hoff] at h1 h2
      exact hno o (by omega) (by omega)

/-- C3, counterexample: the frame `[1/2, -1/2, 1/2, -1/2]` passes the
noise gate, no lag qualifies during the scan (so no qualifying region is
ever found), and the best score observed anywhere in the scan is
`score(0) = 1 > 0.01`; yet `autoCorrelate` returns the `NoPitch` sentinel
`-1`, not `sampleRate / bestLag`.  The post-loop fallback consults
`bestCorrelation`, which tracks the best score among *qualifying* lags
only and is still 0 here. -/
theorem fallback_needs_region_counterexample :
    (¬ meanSquare [(1 : ℚ)/2, -1/2, 1/2, -1/2]
        < NOISE_THRESHOLD * NOISE_THRESHOLD)
      ∧ (∀ o, o < 2 →
          ¬((9/10 : ℚ) < corrScore [(1 : ℚ)/2, -1/2, 1/2, -1/2] o
            ∧ prevScore [(1 : ℚ)/2, -1/2, 1/2, -1/2] o
                < corrScore [(1 : ℚ)/2, -1/2, 1/2, -1/2] o))
      ∧ ((1/100 : ℚ) < corrScore [(1 : ℚ)/2, -1/2, 1/2, -1/2] 0)
      ∧ autoCorrelate [(1 : ℚ)/2, -1/2, 1/2, -1/2] 44100 = -1 := by
  refine ⟨by norm_num [meanSquare, NOISE_THRESHOLD], ?_,
    by norm_num [corrScore, List.range_succ],
    by norm_num [autoCorrelate, meanSquare, NOISE_THRESHOLD, scanLoop, scanStep,
      corrScore, initScan, List.range_succ]⟩
  intro o ho
  interval_cases o <;> norm_num [corrScore, prevScore, List.range_succ]

/-- C3, amended: if the frame passes the noise gate but the scan finds no
qualifying lag at all (no lag whose score exceeds 0.9 and the previous
lag's score), `autoCorrelate` returns the `NoPitch` sentinel `-1`
regardless of how large the scores were: the `0.01` fallback applies only
to the best score among qualifying lags, which is then still 0. -/
theorem no_region_returns_noPitch (buf : List ℚ) (rate : ℚ)
    (hgate : ¬ meanSquare buf < NOISE_THRESHOLD * NOISE_THRESHOLD)
    (hno : ∀ o, o < buf.length / 2 →
      ¬((9/10 : ℚ) < corrScore buf o ∧ prevScore buf o < corrScore buf o)) :
    autoCorrelate buf rate = -1 := by
  unfold autoCorrelate
  rw [if_neg hgate]
  refine scanLoop_no_qualify buf rate (buf.length / 2) initScan rfl rfl
    (by simp [initScan, prevScore]) ?_
  intro o h1 h2
  have hoff : initScan.offset = 0 := rfl
  rw [hoff] at h2
  exact hno o (by omega)

/-- C3, witness for the amended theorem: the same frame as in the
counterexample. -/
theorem no_region_returns_noPitch_witness :
    autoCorrelate [(1 : ℚ)/2, -1/2, 1/2, -1/2] 48000 = -1 := by
  refine no_region_returns_noPitch [(1 : ℚ)/2, -1/2, 1/2, -1/2] 48000
    (by norm_num [meanSquare, NOISE_THRESHOLD]) ?_
  intro o ho
  simp only [List.length_cons, List.length_nil] at ho
  have ho2 : o = 0 ∨ o = 1 := by omega
  rcases ho2 with h | h <;> subst h <;>
    norm_num [corrScore, prevScore, List.range_succ]

/-! ## Claim C10 -/

/-- The scan states the loop can visit: the initial state, and every
state produced from a visited state by one executed loop body.  The side
condition `st1.offset < buf.length / 2` is the loop guard
`offset < MAX_SAMPLES`: a body only executes at an in-range lag. -/
inductive ScanReaches (buf : List ℚ) (rate : ℚ) : ScanState → ScanState → Prop
  | refl (st : ScanState) : ScanReaches buf rate st st
  | step (st st1 st2 : ScanState) : ScanReaches buf rate st st1 →
      st1.offset < buf.length / 2 →
      scanStep buf rate st1 = ScanResult.next st2 →
      ScanReaches buf rate st st2

/-- Helper: `corrScore` at lag 0 is always exactly 1 (each summand is
`|buf[i] - buf[i]| = 0`). -/
theorem corrScore_zero_lag (buf : List ℚ) : corrScore buf 0 = 1 := by
  unfold corrScore
  have h : ∀ (l : List ℕ) (acc : ℚ),
      l.foldl (fun a i => a + |buf.getD i 0 - buf.getD (i + 0) 0|) acc = acc := by
    intro l
    induction l with
    | nil => intro acc; rfl
    | cons j l ih => intro acc; simp [ih]
  simp [h]

/-- The inductive invariant of the lag scan: whenever a qualifying region
has been found, the tracked best lag is at least 1, lies strictly before
the current lag, and its recorded score is its true correlation score,
above 0.9; before any region is found `bestOffset`/`bestCorrelation`
still hold their initialisers; the lag counter never passes
`MAX_SAMPLES`; and `lastCorrelation` is 1 at lag 0. -/
def ScanInv (buf : List ℚ) (st : ScanState) : Prop :=
  (st.foundGoodCorrelation = true →
      1 ≤ st.bestOffset ∧ st.bestOffset + 1 ≤ (st.offset : ℤ)
        ∧ corrScoreZ buf st.bestOffset = st.bestCorrelation
        ∧ (9/10 : ℚ) < st.bestCorrelation)
    ∧ (st.foundGoodCorrelation = false →
        st.bestOffset = -1 ∧ st.bestCorrelation = 0)
    ∧ st.offset ≤ buf.length / 2
    ∧ (st.offset = 0 → st.lastCorrelation = 1)

/-- Helper: `ScanInv` holds at the initial state. -/
theorem scanInv_init (buf : List ℚ) : ScanInv buf initScan := by
  refine ⟨fun h => by simp [initScan] at h, fun _ => ⟨rfl, rfl⟩, ?_, fun _ => rfl⟩
  simp [initScan]

/-- Helper: one executed loop body preserves `ScanInv`. -/
theorem scanInv_step (buf : List ℚ) (rate : ℚ) (st st2 : ScanState)
    (hinv : ScanInv buf st) (hlt : st.offset < buf.length / 2)
    (hstep : scanStep buf rate st = ScanResult.next st2) : ScanInv buf st2 := by
  obtain ⟨hfound, hnotfound, hoff, hzero⟩ := hinv
  by_cases hq : (9/10 : ℚ) < corrScore buf st.offset
      ∧ st.lastCorrelation < corrScore buf st.offset
  · have hoff1 : 1 ≤ st.offset := by
      rcases Nat.eq_zero_or_pos st.offset with h0 | h1
      · exfalso
        rw [h0, corrScore_zero_lag buf, hzero h0] at hq
        exact absurd hq.2 (by norm_num)
      · exact h1
    by_cases hb : st.bestCorrelation < corrScore buf st.offset
    · have hst2 : st2 = { st with
          bestCorrelation := corrScore buf st.offset
          bestOffset := (st.offset : ℤ)
          foundGoodCorrelation := true
          lastCorrelation := corrScore buf st.offset
          offset := st.offset + 1 } := by
        simp only [scanStep, if_pos hq, if_pos hb] at hstep
        exact ((ScanResult.next.injEq _ _).mp hstep).symm
      subst hst2
      refine ⟨fun _ => ⟨?_, ?_, ?_, hq.1⟩,
        fun h => by simp at h, by simpa using hlt, fun h => by simp at h⟩
      · show (1 : ℤ) ≤ (st.offset : ℤ)
        exact_mod_cast hoff1
      · show (st.offset : ℤ) + 1 ≤ ((st.offset + 1 : ℕ) : ℤ)
        push_cast
        omega
      · show corrScoreZ buf (st.offset : ℤ) = corrScore buf st.offset
        rfl
    · have hfg : st.foundGoodCorrelation = true := by
        rcases Bool.eq_false_or_eq_true st.foundGoodCorrelation with h | h
        · exact h
        · exfalso
          obtain ⟨-, hbc⟩ := hnotfound h
          rw [hbc] at hb
          have : (0:ℚ) < corrScore buf st.offset := lt_trans (by norm_num) hq.1
          exact hb this
      have hst2 : st2 = { st with
          foundGoodCorrelation := true
          lastCorrelation := corrScore buf st.offset
          offset := st.offset + 1 } := by
        simp only [scanStep, if_pos hq, if_neg hb] at hstep
        exact ((ScanResult.next.injEq _ _).mp hstep).symm
      subst hst2
      obtain ⟨h1, h2, h3, h4⟩ := hfound hfg
      refine ⟨fun _ => ⟨h1, ?_, h3, h4⟩,
        fun h => by simp at h, by simpa using hlt, fun h => by simp at h⟩
      show st.bestOffset + 1 ≤ ((st.offset + 1 : ℕ) : ℤ)
      push_cast
      omega
  · have hfg : st.foundGoodCorrelation = false := by
      rcases Bool.eq_false_or_eq_true st.foundGoodCorrelation with h | h
      · exfalso
        simp [scanStep, if_neg hq, h] at hstep
      · exact h
    have hst2 : st2 = ⟨st.offset + 1, st.bestOffset, st.bestCorrelation, false,
        corrScore buf st.offset⟩ := by
      simp only [scanStep, if_neg hq, hfg] at hstep
      simp only [Bool.false_eq_true, if_false] at hstep
      exact ((ScanResult.next.injEq _ _).mp hstep).symm
    subst hst2
    obtain ⟨hb1, hb2⟩ := hnotfound hfg
    exact ⟨fun h => by simp [hfg] at h, fun _ => ⟨hb1, hb2⟩,
      by simpa using hlt, fun h => by simp at h⟩

/-- Helper: `ScanInv` holds at every state reachable from the initial
scan state. -/
theorem scanInv_reaches (buf : List ℚ) (rate : ℚ) (st : ScanState)
    (h : ScanReaches buf rate initScan st) : ScanInv buf st := by
  induction h with
  | refl => exact scanInv_init buf
  | step st1 st2 _ hlt hstep ih => exact scanInv_step buf rate st1 st2 ih hlt hstep

/-- C10: at every state the lag scan can visit, (a) once a qualifying
region is found the tracked best lag is at least 1 and scores above 0.9
(so the interpolation divisor `score[bestLag]` is nonzero), (b) a best
score above the 0.01 fallback floor forces `bestLag ≥ 1` (so the fallback
division `sampleRate / bestLag` never divides by lag 0 — lag 0, whose
score is always 1, never becomes the best lag), and (c) whenever the loop
body at an in-range lag returns a frequency via the parabolic branch, the
three interpolation reads `bestLag - 1`, `bestLag`, `bestLag + 1` are
in bounds: `1 ≤ bestLag` and `bestLag + 1 ≤ ⌊N/2⌋ - 1`. -/
theorem scan_safety (buf : List ℚ) (rate : ℚ) (st : ScanState)
    (h : ScanReaches buf rate initScan st) :
    (st.foundGoodCorrelation = true →
        1 ≤ st.bestOffset ∧ (9/10 : ℚ) < corrScoreZ buf st.bestOffset)
      ∧ ((1/100 : ℚ) < st.bestCorrelation → 1 ≤ st.bestOffset)
      ∧ (∀ f, st.offset < buf.length / 2 →
          scanStep buf rate st = ScanResult.ret f →
            1 ≤ st.bestOffset
              ∧ st.bestOffset + 1 ≤ ((buf.length / 2 : ℕ) : ℤ) - 1
              ∧ corrScoreZ buf st.bestOffset ≠ 0) := by
  obtain ⟨hfound, hnotfound, hoff, hzero⟩ := scanInv_reaches buf rate st h
  have hbest : (1/100 : ℚ) < st.bestCorrelation → 1 ≤ st.bestOffset := by
    intro hgt
    rcases Bool.eq_false_or_eq_true st.foundGoodCorrelation with hb | hb
    · exact (hfound hb).1
    · obtain ⟨-, hbc⟩ := hnotfound hb
      rw [hbc] at hgt
      exact absurd hgt (by norm_num)
  refine ⟨fun hb => ⟨(hfound hb).1, ((hfound hb).2.2.1).symm ▸ (hfound hb).2.2.2⟩,
    hbest, ?_⟩
  intro f hlt hret
  have hfg : st.foundGoodCorrelation = true := by
    rcases Bool.eq_false_or_eq_true st.foundGoodCorrelation with hb | hb
    · exact hb
    · exfalso
      by_cases hq : (9/10 : ℚ) < corrScore buf st.offset
          ∧ st.lastCorrelation < corrScore buf st.offset
      · simp only [scanStep, if_pos hq] at hret
        exact ScanResult.noConfusion hret
      · simp only [scanStep, if_neg hq, hb] at hret
        simp only [Bool.false_eq_true, if_false] at hret
        exact ScanResult.noConfusion hret
  obtain ⟨h1, h2, h3, h4⟩ := hfound hfg
  refine ⟨h1, ?_, ?_⟩
  · have hlt2 : (st.offset : ℤ) < ((buf.length / 2 : ℕ) : ℤ) := by exact_mod_cast hlt
    omega
  · rw [h3]
    intro hc
    rw [hc] at h4
    exact absurd h4 (by norm_num)

/-- C10, witness: a buffer with exact period 2 whose scan state after
three executed iterations has found a region with best lag 2. -/
theorem scan_safety_witness :
    ((true = true →
        1 ≤ (2 : ℤ) ∧ (9/10 : ℚ)
          < corrScoreZ [(1 : ℚ)/5, -1/5, 1/5, -1/5, 1/5, -1/5] 2)
      ∧ ((1/100 : ℚ) < 1 → 1 ≤ (2 : ℤ))
      ∧ (∀ f, 3 < ([(1 : ℚ)/5, -1/5, 1/5, -1/5, 1/5, -1/5] : List ℚ).length / 2 →
          scanStep [(1 : ℚ)/5, -1/5, 1/5, -1/5, 1/5, -1/5] 44100 ⟨3, 2, 1, true, 1⟩
            = ScanResult.ret f →
            1 ≤ (2 : ℤ)
              ∧ (2 : ℤ) + 1
                ≤ ((([(1 : ℚ)/5, -1/5, 1/5, -1/5, 1/5, -1/5] : List ℚ).length / 2 : ℕ) : ℤ) - 1
              ∧ corrScoreZ [(1 : ℚ)/5, -1/5, 1/5, -1/5, 1/5, -1/5] 2 ≠ 0)) := by
  have habs : |(2 : ℚ)/5| = 2/5 := by norm_num
  have hbuf : ScanReaches [(1 : ℚ)/5, -1/5, 1/5, -1/5, 1/5, -1/5] 44100
      initScan ⟨3, 2, 1, true, 1⟩ := by
    refine ScanReaches.step _ ⟨2, -1, 0, false, 3/5⟩ _
      (ScanReaches.step _ ⟨1, -1, 0, false, 1⟩ _
        (ScanReaches.step _ initScan _ (ScanReaches.refl _) (by norm_num [initScan]) ?_)
        (by norm_num) ?_)
      (by norm_num) ?_
    · simp [scanStep, initScan, corrScore, List.range_succ]
    · simp [scanStep, corrScore, List.range_succ]
      norm_num [habs]
    · simp [scanStep, corrScore, List.range_succ]
      norm_num [habs]
  exact scan_safety [(1 : ℚ)/5, -1/5, 1/5, -1/5, 1/5, -1/5] 44100 ⟨3, 2, 1, true, 1⟩ hbuf

/-! ## Claim C4 -/

/-- The deviation direction glyph (part_000 lines 198-204):

```js
let direction = '';
if (Math.abs(cents) > 3) {
  direction = cents > 0 ? ' ▼' : ' ▲';
}
else {
  direction = ' -';
}
```

`' ▼'` is the flat-direction glyph, `' ▲'` the sharp-direction glyph and
`' -'` the in-tune marker. -/
def directionLabel (cents : ℚ) : String :=
  if 3 < |cents| then (if 0 < cents then " ▼" else " ▲") else " -"

/-- The direction glyph is shown only for a reading with a positive
smoothed pitch (the `pitch > 0` display branch, part_000 lines 191-206);
otherwise the display shows the idle placeholder. -/
def displayDirection (pitch cents : ℚ) : Option String :=
  if 0 < pitch then some (directionLabel cents) else none

/-- C4: for a reading with positive smoothed pitch the displayed glyph is
`directionLabel cents`, and that label is the in-tune marker when
`|cents| ≤ 3`, the flat-direction glyph `▼` when `|cents| > 3` and
`cents > 0` (measured frequency above the ideal), and the sharp-direction
glyph `▲` when `|cents| > 3` and `cents < 0`. -/
theorem direction_sign_mapping (pitch cents : ℚ) (hpitch : 0 < pitch) :
    displayDirection pitch cents = some (directionLabel cents)
      ∧ (|cents| ≤ 3 → directionLabel cents = " -")
      ∧ (3 < |cents| →
          (0 < cents → directionLabel cents = " ▼")
            ∧ (cents < 0 → directionLabel cents = " ▲")) := by
  refine ⟨by unfold displayDirection; rw [if_pos hpitch],
    fun h => ?_, fun h => ⟨fun hpos => ?_, fun hneg => ?_⟩⟩
  · unfold directionLabel
    rw [if_neg (not_lt.2 h)]
  · unfold directionLabel
    rw [if_pos h, if_pos hpos]
  · unfold directionLabel
    rw [if_pos h, if_neg (not_lt.2 (le_of_lt hneg))]

/-- C4, witness: a reading at 440 Hz with +5 cents shows the
flat-direction glyph. -/
theorem direction_sign_mapping_witness :
    displayDirection 440 5 = some (directionLabel 5)
      ∧ (3 < |(5 : ℚ)| → (0 < (5 : ℚ) → directionLabel 5 = " ▼")
          ∧ ((5 : ℚ) < 0 → directionLabel 5 = " ▲")) :=
  ⟨(direction_sign_mapping 440 5 (by norm_num)).1,
    (direction_sign_mapping 440 5 (by norm_num)).2.2⟩

/-! ## Claim C9: note-math helpers (part_000 lines 112-119, 196)

The transcendental float math is modelled over `ℝ`:
`Math.log` is `Real.log`, `Math.pow` is real exponentiation,
`Math.log2` is `Real.logb 2`, `Math.round` is `round` (both round halves
up). -/

/-- `noteFromPitch(frequency)` (part_000 lines 112-115):
`Math.round(12 * (Math.log(frequency / 440) / Math.log(2))) + 69`. -/
noncomputable def noteFromPitch (frequency : ℝ) : ℤ :=
  round (12 * (Real.log (frequency / 440) / Real.log 2)) + 69

/-- `frequencyFromNoteNumber(note)` (part_000 lines 117-119):
`440 * Math.pow(2, (note - 69) / 12)`. -/
noncomputable def frequencyFromNoteNumber (note : ℤ) : ℝ :=
  440 * (2 : ℝ) ^ (((note : ℝ) - 69) / 12)

/-- The cents offset (part_000 line 196):
`1200 * Math.log2(pitch / idealFrequency)`. -/
noncomputable def centsOffset (pitch idealFrequency : ℝ) : ℝ :=
  1200 * Real.logb 2 (pitch / idealFrequency)

/-- C9: for every note number `n` in `-50..150` the helpers round-trip:
`noteFromPitch (frequencyFromNoteNumber n) = n`, and the cents offset of
the ideal frequency against itself is 0. -/
theorem note_math_roundtrip (n : ℤ) (_h1 : -50 ≤ n) (_h2 : n ≤ 150) :
    noteFromPitch (frequencyFromNoteNumber n) = n
      ∧ centsOffset (frequencyFromNoteNumber n) (frequencyFromNoteNumber n) = 0 := by
  have hpos : (0 : ℝ) < frequencyFromNoteNumber n := by
    unfold frequencyFromNoteNumber
    positivity
  constructor
  · unfold noteFromPitch frequencyFromNoteNumber
    have hlog2 : Real.log 2 ≠ 0 := ne_of_gt (Real.log_pos (by norm_num))
    rw [mul_div_cancel_left₀ _ (by norm_num : (440 : ℝ) ≠ 0)]
    rw [Real.log_rpow (by norm_num : (0 : ℝ) < 2)]
    rw [mul_div_assoc, div_self hlog2, mul_one]
    have h12 : (12 : ℝ) * (((n : ℝ) - 69) / 12) = (n : ℝ) - 69 := by ring
    rw [h12]
    have hcast : ((n : ℝ) - 69) = ((n - 69 : ℤ) : ℝ) := by push_cast; ring
    rw [hcast, round_intCast]
    omega
  · unfold centsOffset
    rw [div_self (ne_of_gt hpos), Real.logb_one, mul_zero]

/-- C9, witness: the round trip at A4 (note number 69, 440 Hz). -/
theorem note_math_roundtrip_witness :
    noteFromPitch (frequencyFromNoteNumber 69) = 69
      ∧ centsOffset (frequencyFromNoteNumber 69) (frequencyFromNoteNumber 69) = 0 :=
  note_math_roundtrip 69 (by norm_num) (by norm_num)

end GuitarTuner
